import Mathlib

/-!
# Verification of the genetic-algorithm core of `genetic.py`

Shallow embedding of the genetic algorithm for the Hash Code 2020
book-scanning problem (`genetic.py`).  Python classes become structures,
in-place mutation becomes explicit state passing, `randrange`/`sample`
draws become parameters constrained by hypotheses, and exceptions
(`ValueError` from an empty `randrange` range, `AssertionError`) become
`Option`/`Except` values.  The external collaborators that live in
`common.py` (the greedy Oracle `get_scanable_books` and the scoring
primitive `score`) are not part of the sources and are modelled from the
specification, as noted on their declarations.
-/

/-- A book as it flows through the evaluator: an `(item_id, score)` pair
(`genetic.py` reads scores with `x[1]` and ids with `x[0]`). -/
abbrev Book := Nat × Nat

/-- A value stored in the Python set `books_scanned`.  Python sets are
dynamically typed: the specification speaks of a set of item-ids
(rendered `Sum.inl id`) while line 38 of the code inserts whole
`(id, score)` pairs (rendered `Sum.inr pair`), so the element type keeps
the two shapes apart. -/
abbrev PyVal := Nat ⊕ (Nat × Nat)

/-- The `Library` objects of `common.py` as used by `genetic.py`: a signup
cost, the list of `(item_id, score)` pairs it offers, and the scratch field
`books_chosen_num` that the evaluator rewrites. -/
structure Library where
  signup : Nat
  books : List Book
  books_chosen_num : Nat
deriving DecidableEq, Repr

instance : Inhabited Library :=
  ⟨⟨0, [], 0⟩⟩

/-- Modelled from the spec: the Scanable-Books Oracle `get_scanable_books`
of `common.py` is not among the sources under verification.  Per §2/§6 it
is a pure, deterministic function of the resource, the global budget, the
budget already consumed and the set of already-claimed values, returning
the ordered list of `(item_id, score)` pairs the resource claims.  It is
kept abstract; theorems quantify over it.  The claimed-set argument has
the element type that the caller in `genetic.py` actually passes. -/
abbrev Oracle := Library → Nat → Nat → Finset PyVal → List Book

/-- A `Chromosome` of `genetic.py`: the budget `days`, the ordered list of
`(library_id, library)` pairs, and the derived fields `split` and `score`. -/
structure Chromosome where
  days : Nat
  libraries : List (Nat × Library)
  split : Nat
  score : Nat
deriving DecidableEq, Repr

instance : Inhabited Chromosome :=
  ⟨⟨0, [], 0, 0⟩⟩

/-- The loop state of `Chromosome.calculate_split_and_score`: `start`
(budget consumed so far), `sc` (accumulated score), the set
`books_scanned`, the running `split`, and the libraries already processed,
their `books_chosen_num` fields rewritten (state-passing rendering of the
in-place field writes of lines 32 and 39). -/
structure EvalAcc where
  start : Nat
  sc : Nat
  books_scanned : Finset PyVal
  split : Nat
  outLibs : List (Nat × Library)

/-- One iteration of the `for it, tup in enumerate(self.libraries)` loop of
`Chromosome.calculate_split_and_score` (`genetic.py` lines 28-40).  The
entry `p` is `(it, (library_id, library))`.  Note line 38 inserts the
whole pairs, `set(books)`, into `books_scanned`, and `self.split` is only
assigned in the non-empty branch. -/
def calcStep (oracle : Oracle) (days : Nat) (acc : EvalAcc) (p : Nat × Nat × Library) : EvalAcc :=
  let library := p.2.2
  let books := oracle library days acc.start acc.books_scanned
  if books = [] then
    { acc with outLibs := acc.outLibs ++ [(p.2.1, { library with books_chosen_num := 0 })] }
  else
    { start := acc.start + library.signup
      sc := acc.sc + (books.map Prod.snd).sum
      books_scanned := acc.books_scanned ∪ (books.map Sum.inr).toFinset
      split := p.1 + 1
      outLibs := acc.outLibs ++ [(p.2.1, { library with books_chosen_num := books.length })] }

/-- The evaluator loop, iterated over the enumerated library list. -/
def calcGo (oracle : Oracle) (days : Nat) : EvalAcc → List (Nat × Nat × Library) → EvalAcc
  | acc, [] => acc
  | acc, x :: rest => calcGo oracle days (calcStep oracle days acc x) rest

/-- `Chromosome.calculate_split_and_score` (`genetic.py` lines 24-41).  The
loop locals `start`, `sc` and `books_scanned` are reset on entry, whereas
`self.split` is only written inside the non-empty branch, hence the
accumulator starts from the chromosome's current `split`. -/
def Chromosome.calculate_split_and_score (c : Chromosome) (oracle : Oracle) : Chromosome :=
  let acc := calcGo oracle c.days ⟨0, 0, ∅, c.split, []⟩ c.libraries.enum
  { c with libraries := acc.outLibs, split := acc.split, score := acc.sc }

/-- The evaluator state just before the loop iteration at position `j`
(with `split0` the chromosome's `split` on entry). -/
def accAfter (oracle : Oracle) (days : Nat) (libs : List (Nat × Library)) (split0 j : Nat) :
    EvalAcc :=
  calcGo oracle days ⟨0, 0, ∅, split0, []⟩ (libs.enum.take j)

/-- The list returned by the Oracle call at loop position `j` of the
evaluator; by construction of `calcStep` the call receives exactly
`(accAfter … j).start` and `(accAfter … j).books_scanned`. -/
def callAt (oracle : Oracle) (days : Nat) (libs : List (Nat × Library)) (split0 j : Nat) :
    List Book :=
  oracle (libs.getD j default).2 days (accAfter oracle days libs split0 j).start
    (accAfter oracle days libs split0 j).books_scanned

/-- Modelled from the spec: the external scoring primitive
`score(libraries, days, verbose=False)` of `common.py` is not among the
sources under verification.  Per §4.1/§4.3 it is the score component of
the fitness evaluation of an ordering, computed from a fresh state. -/
def scoreFn (oracle : Oracle) (libs : List (Nat × Library)) (days : Nat) : Nat :=
  (calcGo oracle days ⟨0, 0, ∅, 0, []⟩ libs.enum).sc

/-- The Oracle of the spec (§2, §6) is a function of the resource's
immutable attributes, the budget, the elapsed budget and the claimed set;
in particular it does not read the scratch field `books_chosen_num` that
the evaluator rewrites between calls. -/
def OracleIgnoresCounts (oracle : Oracle) : Prop :=
  ∀ lib n days start claimed,
    oracle { lib with books_chosen_num := n } days start claimed = oracle lib days start claimed

/-- Python's simultaneous swap `libs[a], libs[b] = libs[b], libs[a]`
(`genetic.py` line 54). -/
def swapAt {α : Type} [Inhabited α] (l : List α) (a b : Nat) : List α :=
  (l.set a (l.getD b default)).set b (l.getD a default)

/-- `Chromosome.mutate` (`genetic.py` lines 43-57), a single attempt.  The
draws `a = randrange(0, self.split)` (line 52) and
`b = randrange(self.split if self.split != len(self.libraries) else 0,
len(self.libraries))` (line 53) are surfaced as parameters; each
`randrange(lo, hi)` raises `ValueError` on an empty range `hi ≤ lo`,
rendered as `none`: the `a` draw raises when the post-evaluation `split`
is 0, and the `b` draw raises when its lower bound (the post-evaluation
`split`, or 0 when that equals the list length) reaches the list length.
On acceptance only `self.libraries` is replaced: `score` and `split` stay
those of the pre-swap ordering. -/
def Chromosome.mutate (c : Chromosome) (oracle : Oracle) (a b : Nat) : Option Chromosome :=
  let c1 := c.calculate_split_and_score oracle
  if c1.split = 0 then none
  else
    let bLo := if c1.split ≠ c1.libraries.length then c1.split else 0
    if c1.libraries.length ≤ bLo then none
    else
      let libs := swapAt c1.libraries a b
      let sc := scoreFn oracle libs c1.days
      if c1.score < sc then some { c1 with libraries := libs } else some c1

/-- One iteration of the loop in the top-level `mutate` (`genetic.py`
lines 159-163): `c.mutate()` followed by `c.calculate_split_and_score()`. -/
def mutateOnce (oracle : Oracle) (c : Chromosome) (ab : Nat × Nat) : Option Chromosome :=
  (c.mutate oracle ab.1 ab.2).map (fun c2 => c2.calculate_split_and_score oracle)

/-- The top-level `mutate(c, times)` (`genetic.py` lines 159-163), with the
random draws of all attempts surfaced as a list (one `(a, b)` pair per
attempt). -/
def mutateMany (oracle : Oracle) (c : Chromosome) (draws : List (Nat × Nat)) : Option Chromosome :=
  match draws with
  | [] => some c
  | ab :: rest =>
    match mutateOnce oracle c ab with
    | none => none
    | some c2 => mutateMany oracle c2 rest

/-- One step of the kickoff loop of `Chromosome.reorder_libraries`
(`genetic.py` line 72): `self.libraries.append(self.libraries.pop(j))`. -/
def popAppend {α : Type} [Inhabited α] (l : List α) (j : Nat) : List α :=
  l.eraseIdx j ++ [l.getD j default]

/-- The indices collected by the first loop of
`Chromosome.reorder_libraries` (`genetic.py` lines 64-68): positions
`j < split` whose library has `books_chosen_num == 0`, in ascending
order. -/
def kickoffs (c : Chromosome) : List Nat :=
  (List.range c.split).filter (fun j => (c.libraries.getD j default).2.books_chosen_num = 0)

/-- `Chromosome.reorder_libraries` (`genetic.py` lines 59-72): the kickoff
indices are processed in descending order, each popped and appended to the
end of the list.  `self.split` is not updated. -/
def Chromosome.reorder_libraries (c : Chromosome) : Chromosome :=
  { c with libraries := (kickoffs c).reverse.foldl popAppend c.libraries }

/-- `crossover` (`genetic.py` lines 110-139).  The draw
`point = randrange(1, split)` is surfaced as a parameter.
`randrange(1, split)` raises `ValueError` exactly when `split < 2`, and
the `assert` of line 135 raises `AssertionError`; both are rendered as
`Except.error`.  The `deepcopy` of both parents is implicit in the pure
state-passing style: the inputs are untouched. -/
def crossover (a b : Chromosome) (point : Nat) : Except String (Chromosome × Chromosome) :=
  let ap := a.reorder_libraries
  let bp := b.reorder_libraries
  let split := min ap.split bp.split
  if split < 2 then .error "ValueError: empty range for randrange"
  else
    let aHead := ap.libraries.take point
    let aIds := (aHead.map Prod.fst).toFinset
    let bHead := bp.libraries.take point
    let bIds := (bHead.map Prod.fst).toFinset
    let aLibs := aHead ++ bp.libraries.filter (fun p => decide (p.1 ∉ aIds))
    let bLibs := bHead ++ ap.libraries.filter (fun p => decide (p.1 ∉ bIds))
    if aLibs.length = bLibs.length ∧ bLibs.length = ap.libraries.length ∧
        ap.libraries.length = bp.libraries.length then
      .ok ({ ap with libraries := aLibs }, { bp with libraries := bLibs })
    else .error "AssertionError"

/-- The tracking fold of `tournament` (`genetic.py` lines 103-106):
`m = (0, 0)`, then `if c.score > m[1]: m = (it, c.score)` over the
enumerated sample. -/
def tournamentFold (m : Nat × Nat) : List (Nat × Chromosome) → Nat × Nat
  | [] => m
  | p :: rest => tournamentFold (if m.2 < p.2.score then (p.1, p.2.score) else m) rest

/-- `tournament` (`genetic.py` lines 101-107).  The external draw
`sample(chromosomes, k)` (k distinct members, in sampling order) is
surfaced as the argument `chosen`; theorems quantify over it. -/
def tournament (chosen : List Chromosome) : Chromosome :=
  chosen.getD (tournamentFold (0, 0) chosen.enum).1 default

/-- `flatten` (`genetic.py` lines 155-156): flattens the list of children
pairs produced by the selection+crossover phase. -/
def flatten (pre : List (Chromosome × Chromosome)) : List Chromosome :=
  pre.flatMap (fun p => [p.1, p.2])

/-- A chromosome whose fields are mutually consistent: `split` within
range and the library ids free of duplicates (§3: the sequence is a
permutation, no duplicates). -/
def Chromosome.Valid (c : Chromosome) : Prop :=
  c.split ≤ c.libraries.length ∧ (c.libraries.map Prod.fst).Nodup

/-! ## List-level lemmas -/

theorem enumFrom_append_eq {α : Type} (l₁ l₂ : List α) (n : Nat) :
    (l₁ ++ l₂).enumFrom n = l₁.enumFrom n ++ l₂.enumFrom (n + l₁.length) := by
  induction l₁ generalizing n with
  | nil => simp
  | cons x xs ih =>
    simp only [List.cons_append, List.enumFrom_cons, ih, List.length_cons]
    rw [Nat.add_comm xs.length 1, ← Nat.add_assoc]

theorem fst_ge_of_mem_enumFrom {α : Type} :
    ∀ (l : List α) (n : Nat) (p : Nat × α), p ∈ l.enumFrom n → n ≤ p.1 := by
  intro l
  induction l with
  | nil => intro n p hp; simp at hp
  | cons x xs ih =>
    intro n p hp
    rw [List.enumFrom_cons, List.mem_cons] at hp
    rcases hp with h | h
    · subst h; exact Nat.le_refl n
    · exact Nat.le_of_succ_le (ih (n + 1) p h)

theorem getD_popAppend_of_lt {α : Type} [Inhabited α] (l : List α) (i j : Nat)
    (hij : i < j) (hj : j < l.length) :
    (popAppend l j).getD i default = l.getD i default := by
  unfold popAppend
  have hel : (l.eraseIdx j).length = l.length - 1 := by
    rw [List.length_eraseIdx]; simp [hj]
  have h1 : i < (l.eraseIdx j).length := by omega
  rw [List.getD_append _ _ _ _ h1, List.eraseIdx_eq_take_drop_succ]
  have h2 : i < (l.take j).length := by
    simp only [List.length_take]; omega
  rw [List.getD_append _ _ _ _ h2]
  rw [List.getD_eq_getElem _ _ h2, List.getD_eq_getElem _ _ (by omega : i < l.length)]
  simp [List.getElem_take]

theorem cons_getD_set_perm {α : Type} [Inhabited α] :
    ∀ (xs : List α) (j : Nat) (x : α), j < xs.length →
      (xs.getD j default :: xs.set j x).Perm (x :: xs) := by
  intro xs
  induction xs with
  | nil => intro j x hj; simp at hj
  | cons y ys ih =>
    intro j x hj
    cases j with
    | zero => simpa using List.Perm.swap x y ys
    | succ j =>
      simp only [List.getD_cons_succ, List.set_cons_succ]
      refine (List.Perm.swap y (ys.getD j default) (ys.set j x)).trans ?_
      refine (List.Perm.cons y (ih j x (by simpa using hj))).trans ?_
      exact List.Perm.swap x y ys

theorem swapAt_perm {α : Type} [Inhabited α] :
    ∀ (l : List α) (a b : Nat), a < l.length → b < l.length → (swapAt l a b).Perm l := by
  intro l
  induction l with
  | nil => intro a b ha _; simp at ha
  | cons x xs ih =>
    intro a b ha hb
    cases a with
    | zero =>
      cases b with
      | zero => simp [swapAt]
      | succ b =>
        have hb' : b < xs.length := by simpa using hb
        simp only [swapAt, List.getD_cons_succ, List.getD_cons_zero, List.set_cons_zero,
          List.set_cons_succ]
        exact cons_getD_set_perm xs b x hb'
    | succ a =>
      cases b with
      | zero =>
        have ha' : a < xs.length := by simpa using ha
        simp only [swapAt, List.getD_cons_succ, List.getD_cons_zero, List.set_cons_succ,
          List.set_cons_zero]
        exact cons_getD_set_perm xs a x ha'
      | succ b =>
        have ha' : a < xs.length := by simpa using ha
        have hb' : b < xs.length := by simpa using hb
        simp only [swapAt, List.getD_cons_succ, List.set_cons_succ]
        exact List.Perm.cons x (ih a b ha' hb')

theorem popAppend_perm {α : Type} [Inhabited α] (l : List α) (j : Nat) (hj : j < l.length) :
    (popAppend l j).Perm l := by
  unfold popAppend
  rw [List.eraseIdx_eq_take_drop_succ, List.getD_eq_getElem _ _ hj, List.append_assoc]
  refine (List.Perm.append_left (l.take j) (List.perm_append_singleton _ _)).trans ?_
  rw [← List.drop_eq_getElem_cons hj, List.take_append_drop]

theorem foldl_popAppend_perm {α : Type} [Inhabited α] :
    ∀ (idxs : List Nat) (l : List α), (∀ i ∈ idxs, i < l.length) →
      (idxs.foldl popAppend l).Perm l := by
  intro idxs
  induction idxs with
  | nil => intro l _; exact List.Perm.refl l
  | cons j rest ih =>
    intro l hb
    have hj : j < l.length := hb j (List.mem_cons_self j rest)
    have h1 : (popAppend l j).Perm l := popAppend_perm l j hj
    have hb' : ∀ i ∈ rest, i < (popAppend l j).length := by
      intro i hi
      rw [h1.length_eq]
      exact hb i (List.mem_cons_of_mem j hi)
    exact (ih (popAppend l j) hb').trans h1

theorem filter_enumFrom_eraseIdx {α : Type} :
    ∀ (l : List α) (m : Nat), m < l.length → ∀ (n : Nat) (S : List Nat),
      (∀ i ∈ S, i < n + m) →
      (((l.eraseIdx m).enumFrom n).filter (fun p => decide (p.1 ∉ S))).map Prod.snd
        = ((l.enumFrom n).filter (fun p => decide (p.1 ∉ (n + m) :: S))).map Prod.snd := by
  intro l
  induction l with
  | nil => intro m hm; simp at hm
  | cons x xs ih =>
    intro m hm n S hS
    cases m with
    | zero =>
      rw [List.eraseIdx_cons_zero, List.enumFrom_cons, List.filter_cons]
      have hhead : (decide ((n : Nat) ∉ (n + 0) :: S)) = false := by simp
      rw [hhead]
      have hall1 : (xs.enumFrom n).filter (fun p => decide (p.1 ∉ S)) = xs.enumFrom n := by
        rw [List.filter_eq_self]
        intro p hp
        have h1 : n ≤ p.1 := fst_ge_of_mem_enumFrom xs n p hp
        simp only [decide_eq_true_eq]
        intro hmem
        exact absurd (hS p.1 hmem) (by omega)
      have hall2 : (xs.enumFrom (n + 1)).filter (fun p => decide (p.1 ∉ (n + 0) :: S))
          = xs.enumFrom (n + 1) := by
        rw [List.filter_eq_self]
        intro p hp
        have h1 : n + 1 ≤ p.1 := fst_ge_of_mem_enumFrom xs (n + 1) p hp
        simp only [List.mem_cons, decide_eq_true_eq]
        rintro (h | hmem)
        · omega
        · exact absurd (hS p.1 hmem) (by omega)
      rw [hall1, hall2]
      simp [List.enumFrom_map_snd]
    | succ m =>
      have hm' : m < xs.length := by simpa using hm
      rw [List.eraseIdx_cons_succ, List.enumFrom_cons, List.enumFrom_cons,
        List.filter_cons, List.filter_cons]
      have hhead : (decide ((n : Nat) ∉ (n + (m + 1)) :: S)) = decide ((n : Nat) ∉ S) := by
        by_cases h : (n : Nat) ∈ S
        · simp [h]
        · simp [h]
      rw [hhead]
      have harith : n + (m + 1) = (n + 1) + m := by omega
      have htail := ih m hm' (n + 1) S (by intro i hi; have := hS i hi; omega)
      rw [harith]
      by_cases h : (decide ((n : Nat) ∉ S)) = true
      · rw [h, if_pos rfl, if_pos rfl]
        simp only [List.map_cons]
        rw [htail]
      · rw [Bool.not_eq_true] at h
        rw [h]
        simp only [Bool.false_eq_true, if_false]
        rw [htail]

theorem keep_popAppend {α : Type} [Inhabited α] (l : List α) (j : Nat) (hj : j < l.length)
    (S : List Nat) (hS : ∀ i ∈ S, i < j) :
    (((popAppend l j).enum.filter (fun p => decide (p.1 ∉ S))).map Prod.snd)
      = ((l.enum.filter (fun p => decide (p.1 ∉ j :: S))).map Prod.snd) ++ [l.getD j default] := by
  unfold popAppend
  have hel : (l.eraseIdx j).length = l.length - 1 := by
    rw [List.length_eraseIdx]; simp [hj]
  rw [List.enum_eq_enumFrom, List.enum_eq_enumFrom, enumFrom_append_eq]
  rw [List.filter_append, List.map_append]
  have hpart1 := filter_enumFrom_eraseIdx l j hj 0 S (by intro i hi; simpa using hS i hi)
  rw [Nat.zero_add] at hpart1
  rw [hpart1]
  have hpart2 : ((([l.getD j default].enumFrom (0 + (l.eraseIdx j).length)).filter
      (fun p => decide (p.1 ∉ S))).map Prod.snd) = [l.getD j default] := by
    rw [List.enumFrom_cons, List.enumFrom_nil]
    have hkeep : (decide ((0 + (l.eraseIdx j).length : Nat) ∉ S)) = true := by
      simp only [Nat.zero_add, decide_eq_true_eq]
      intro hmem
      have h1 := hS _ hmem
      omega
    rw [List.filter_cons, hkeep, if_pos rfl, List.filter_nil]
    simp
  rw [hpart2]

theorem foldl_popAppend_eq {α : Type} [Inhabited α] :
    ∀ (idxs : List Nat) (l : List α), idxs.Pairwise (fun i j => i > j) →
      (∀ i ∈ idxs, i < l.length) →
      idxs.foldl popAppend l
        = ((l.enum.filter (fun p => decide (p.1 ∉ idxs))).map Prod.snd)
          ++ idxs.map (fun j => l.getD j default) := by
  intro idxs
  induction idxs with
  | nil =>
    intro l _ _
    simp [List.enum_eq_enumFrom, List.enumFrom_map_snd]
  | cons j rest ih =>
    intro l hp hb
    rw [List.foldl_cons]
    have hj : j < l.length := hb j (List.mem_cons_self j rest)
    have hrest_lt : ∀ i ∈ rest, i < j := by
      intro i hi
      exact (List.pairwise_cons.mp hp).1 i hi
    have hlen : (popAppend l j).length = l.length := (popAppend_perm l j hj).length_eq
    have hb' : ∀ i ∈ rest, i < (popAppend l j).length := by
      intro i hi
      rw [hlen]
      exact hb i (List.mem_cons_of_mem j hi)
    rw [ih (popAppend l j) (List.pairwise_cons.mp hp).2 hb']
    rw [keep_popAppend l j hj rest hrest_lt]
    have hmap : rest.map (fun i => (popAppend l j).getD i default)
        = rest.map (fun i => l.getD i default) :=
      List.map_congr_left (fun i hi => getD_popAppend_of_lt l i j (hrest_lt i hi) hj)
    rw [hmap, List.append_assoc, List.singleton_append, List.map_cons]

/-! ## Evaluator structural lemmas -/

theorem calculate_def (c : Chromosome) (oracle : Oracle) :
    c.calculate_split_and_score oracle
      = { c with
          libraries := (calcGo oracle c.days ⟨0, 0, ∅, c.split, []⟩ c.libraries.enum).outLibs
          split := (calcGo oracle c.days ⟨0, 0, ∅, c.split, []⟩ c.libraries.enum).split
          score := (calcGo oracle c.days ⟨0, 0, ∅, c.split, []⟩ c.libraries.enum).sc } := rfl

theorem calcGo_append (oracle : Oracle) (days : Nat) (l₁ l₂ : List (Nat × Nat × Library)) :
    ∀ acc, calcGo oracle days acc (l₁ ++ l₂) = calcGo oracle days (calcGo oracle days acc l₁) l₂ := by
  induction l₁ with
  | nil => intro acc; rfl
  | cons x xs ih =>
    intro acc
    rw [List.cons_append, calcGo, calcGo, ih]

theorem calcGo_split_init (oracle : Oracle) (days : Nat) :
    ∀ (l : List (Nat × Nat × Library)) (acc : EvalAcc) (s : Nat),
      (calcGo oracle days { acc with split := s } l).start = (calcGo oracle days acc l).start
      ∧ (calcGo oracle days { acc with split := s } l).sc = (calcGo oracle days acc l).sc
      ∧ (calcGo oracle days { acc with split := s } l).books_scanned
          = (calcGo oracle days acc l).books_scanned
      ∧ (calcGo oracle days { acc with split := s } l).outLibs
          = (calcGo oracle days acc l).outLibs
      ∧ ((calcGo oracle days { acc with split := s } l).split
            = (calcGo oracle days acc l).split
         ∨ ((calcGo oracle days { acc with split := s } l).split = s
            ∧ (calcGo oracle days acc l).split = acc.split)) := by
  intro l
  induction l with
  | nil => intro acc s; exact ⟨rfl, rfl, rfl, rfl, Or.inr ⟨rfl, rfl⟩⟩
  | cons x xs ih =>
    intro acc s
    by_cases h : oracle x.2.2 days acc.start acc.books_scanned = []
    · have hstep : calcStep oracle days { acc with split := s } x
          = { calcStep oracle days acc x with split := s } := by
        simp [calcStep, h]
      rw [calcGo, calcGo, hstep]
      rcases ih (calcStep oracle days acc x) s with ⟨h1, h2, h3, h4, h5⟩
      refine ⟨h1, h2, h3, h4, ?_⟩
      rcases h5 with h5 | ⟨h5a, h5b⟩
      · exact Or.inl h5
      · refine Or.inr ⟨h5a, ?_⟩
        rw [h5b]
        simp [calcStep, h]
    · have hstep : calcStep oracle days { acc with split := s } x
          = calcStep oracle days acc x := by
        simp [calcStep, h]
      rw [calcGo, calcGo, hstep]
      exact ⟨rfl, rfl, rfl, rfl, Or.inl rfl⟩

/-- The per-position immutable content of a library entry: id, signup cost
and book list (everything except the scratch field `books_chosen_num`). -/
def stripL (p : Nat × Library) : Nat × Nat × List Book :=
  (p.1, p.2.signup, p.2.books)

theorem calcGo_outLibs_strip (oracle : Oracle) (days : Nat) :
    ∀ (l : List (Nat × Nat × Library)) (acc : EvalAcc),
      (calcGo oracle days acc l).outLibs.map stripL
        = acc.outLibs.map stripL ++ l.map (fun p => stripL p.2) := by
  intro l
  induction l with
  | nil => intro acc; simp [calcGo]
  | cons x xs ih =>
    intro acc
    rw [calcGo, ih]
    by_cases h : oracle x.2.2 days acc.start acc.books_scanned = []
    · simp [calcStep, h, stripL]
    · simp [calcStep, h, stripL]

theorem calcGo_congr_strip (oracle : Oracle) (ho : OracleIgnoresCounts oracle) (days : Nat) :
    ∀ (l₁ l₂ : List (Nat × Nat × Library)),
      l₁.map (fun p => (p.1, stripL p.2)) = l₂.map (fun p => (p.1, stripL p.2)) →
      ∀ acc, calcGo oracle days acc l₁ = calcGo oracle days acc l₂ := by
  intro l₁
  induction l₁ with
  | nil =>
    intro l₂ h acc
    cases l₂ with
    | nil => rfl
    | cons y ys => simp at h
  | cons x xs ih =>
    intro l₂ h acc
    cases l₂ with
    | nil => simp at h
    | cons y ys =>
      simp only [List.map_cons, List.cons.injEq] at h
      obtain ⟨hxy, hys⟩ := h
      obtain ⟨xi, xid, xlib⟩ := x
      obtain ⟨yi, yid, ylib⟩ := y
      obtain ⟨xsg, xbk, xct⟩ := xlib
      obtain ⟨ysg, ybk, yct⟩ := ylib
      simp only [stripL, Prod.mk.injEq] at hxy
      obtain ⟨hi, hid, hsg, hbk⟩ := hxy
      subst hi
      subst hid
      subst hsg
      subst hbk
      have horc : ∀ st bs, oracle ⟨xsg, xbk, yct⟩ days st bs = oracle ⟨xsg, xbk, xct⟩ days st bs := by
        intro st bs
        have h1 := ho ⟨xsg, xbk, xct⟩ yct days st bs
        simpa using h1
      have hstep : calcStep oracle days acc (xi, xid, ⟨xsg, xbk, xct⟩)
          = calcStep oracle days acc (xi, xid, ⟨xsg, xbk, yct⟩) := by
        unfold calcStep
        simp only [horc]
      rw [calcGo, calcGo, hstep]
      exact ih ys hys _

theorem enumFrom_strip_congr :
    ∀ (l₁ l₂ : List (Nat × Library)) (n : Nat), l₁.map stripL = l₂.map stripL →
      (l₁.enumFrom n).map (fun p => (p.1, stripL p.2))
        = (l₂.enumFrom n).map (fun p => (p.1, stripL p.2)) := by
  intro l₁
  induction l₁ with
  | nil =>
    intro l₂ n h
    cases l₂ with
    | nil => rfl
    | cons y ys => simp at h
  | cons x xs ih =>
    intro l₂ n h
    cases l₂ with
    | nil => simp at h
    | cons y ys =>
      simp only [List.map_cons, List.cons.injEq] at h
      simp only [List.enumFrom_cons, List.map_cons, List.cons.injEq]
      exact ⟨by rw [h.1], ih ys (n + 1) h.2⟩

theorem calcGo_enum_congr (oracle : Oracle) (ho : OracleIgnoresCounts oracle) (days : Nat)
    {l₁ l₂ : List (Nat × Library)} (h : l₁.map stripL = l₂.map stripL) (acc : EvalAcc) :
    calcGo oracle days acc l₁.enum = calcGo oracle days acc l₂.enum :=
  calcGo_congr_strip oracle ho days _ _ (enumFrom_strip_congr l₁ l₂ 0 h) acc

theorem calculate_strip (c : Chromosome) (oracle : Oracle) :
    ((c.calculate_split_and_score oracle).libraries).map stripL = c.libraries.map stripL := by
  rw [calculate_def]
  show (calcGo oracle c.days ⟨0, 0, ∅, c.split, []⟩ c.libraries.enum).outLibs.map stripL
      = c.libraries.map stripL
  rw [calcGo_outLibs_strip]
  have h1 : c.libraries.enum.map (fun p => stripL p.2)
      = (c.libraries.enum.map Prod.snd).map stripL := by
    rw [List.map_map]
    rfl
  rw [h1, List.enum_eq_enumFrom, List.enumFrom_map_snd]
  simp

theorem map_fst_of_strip_eq {l₁ l₂ : List (Nat × Library)}
    (h : l₁.map stripL = l₂.map stripL) : l₁.map Prod.fst = l₂.map Prod.fst := by
  have h2 := congrArg (List.map (fun q : Nat × Nat × List Book => q.1)) h
  simpa [List.map_map, Function.comp_def, stripL] using h2

theorem length_of_strip_eq {l₁ l₂ : List (Nat × Library)}
    (h : l₁.map stripL = l₂.map stripL) : l₁.length = l₂.length := by
  have h2 := congrArg List.length h
  simpa using h2

theorem calculate_ids (c : Chromosome) (oracle : Oracle) :
    ((c.calculate_split_and_score oracle).libraries).map Prod.fst
      = c.libraries.map Prod.fst :=
  map_fst_of_strip_eq (calculate_strip c oracle)

theorem calculate_length (c : Chromosome) (oracle : Oracle) :
    (c.calculate_split_and_score oracle).libraries.length = c.libraries.length :=
  length_of_strip_eq (calculate_strip c oracle)

theorem calculate_days (c : Chromosome) (oracle : Oracle) :
    (c.calculate_split_and_score oracle).days = c.days := rfl

theorem calculate_score_eq (c : Chromosome) (oracle : Oracle) :
    (c.calculate_split_and_score oracle).score = scoreFn oracle c.libraries c.days := by
  rw [calculate_def]
  show (calcGo oracle c.days ⟨0, 0, ∅, c.split, []⟩ c.libraries.enum).sc
      = (calcGo oracle c.days ⟨0, 0, ∅, 0, []⟩ c.libraries.enum).sc
  exact (calcGo_split_init oracle c.days c.libraries.enum ⟨0, 0, ∅, 0, []⟩ c.split).2.1

theorem scoreFn_strip_congr (oracle : Oracle) (ho : OracleIgnoresCounts oracle)
    {l₁ l₂ : List (Nat × Library)} (h : l₁.map stripL = l₂.map stripL) (days : Nat) :
    scoreFn oracle l₁ days = scoreFn oracle l₂ days := by
  unfold scoreFn
  rw [calcGo_enum_congr oracle ho days h]

theorem calculate_idempotent (oracle : Oracle) (ho : OracleIgnoresCounts oracle)
    (c : Chromosome) :
    (c.calculate_split_and_score oracle).calculate_split_and_score oracle
      = c.calculate_split_and_score oracle := by
  have hstrip := calculate_strip c oracle
  have hcongr : calcGo oracle c.days ⟨0, 0, ∅, (c.calculate_split_and_score oracle).split, []⟩
      ((c.calculate_split_and_score oracle).libraries).enum
      = calcGo oracle c.days ⟨0, 0, ∅, (c.calculate_split_and_score oracle).split, []⟩
        c.libraries.enum := calcGo_enum_congr oracle ho c.days hstrip _
  obtain ⟨h1, h2, h3, h4, h5⟩ := calcGo_split_init oracle c.days c.libraries.enum
    ⟨0, 0, ∅, c.split, []⟩ (c.calculate_split_and_score oracle).split
  dsimp only at h1 h2 h3 h4 h5
  rw [calculate_def (c.calculate_split_and_score oracle) oracle]
  have hk : ∀ X : EvalAcc, X.outLibs = (c.calculate_split_and_score oracle).libraries →
      X.split = (c.calculate_split_and_score oracle).split →
      X.sc = (c.calculate_split_and_score oracle).score →
      { c.calculate_split_and_score oracle with
        libraries := X.outLibs, split := X.split, score := X.sc }
        = c.calculate_split_and_score oracle := by
    intro X hL hS hSc
    rw [hL, hS, hSc]
  apply hk
  · rw [calculate_days, hcongr]
    exact h4
  · rw [calculate_days, hcongr]
    rcases h5 with h5 | ⟨h5a, _⟩
    · exact h5
    · exact h5a
  · rw [calculate_days, hcongr]
    exact h2

/-! ## The evaluator, call by call -/

theorem accAfter_zero (oracle : Oracle) (days : Nat) (libs : List (Nat × Library)) (s : Nat) :
    accAfter oracle days libs s 0 = ⟨0, 0, ∅, s, []⟩ := rfl


theorem calcStep_split_of_empty (oracle : Oracle) (days : Nat) (acc : EvalAcc)
    (p : Nat × Nat × Library) (h : oracle p.2.2 days acc.start acc.books_scanned = []) :
    (calcStep oracle days acc p).split = acc.split := by
  simp [calcStep, h]

theorem calcStep_split_of_ne (oracle : Oracle) (days : Nat) (acc : EvalAcc)
    (p : Nat × Nat × Library) (h : ¬oracle p.2.2 days acc.start acc.books_scanned = []) :
    (calcStep oracle days acc p).split = p.1 + 1 := by
  simp [calcStep, h]

theorem calcStep_books_scanned_of_empty (oracle : Oracle) (days : Nat) (acc : EvalAcc)
    (p : Nat × Nat × Library) (h : oracle p.2.2 days acc.start acc.books_scanned = []) :
    (calcStep oracle days acc p).books_scanned = acc.books_scanned := by
  simp [calcStep, h]

theorem calcStep_books_scanned_of_ne (oracle : Oracle) (days : Nat) (acc : EvalAcc)
    (p : Nat × Nat × Library) (h : ¬oracle p.2.2 days acc.start acc.books_scanned = []) :
    (calcStep oracle days acc p).books_scanned
      = acc.books_scanned
        ∪ ((oracle p.2.2 days acc.start acc.books_scanned).map Sum.inr).toFinset := by
  simp [calcStep, h]

theorem enum_take_succ (libs : List (Nat × Library)) (j : Nat) (hj : j < libs.length) :
    libs.enum.take (j + 1) = libs.enum.take j ++ [(j, libs.getD j default)] := by
  rw [List.take_succ]
  have hg : libs.enum[j]? = some (j, libs.getD j default) := by
    rw [List.enum_eq_enumFrom, List.getElem?_enumFrom, List.getElem?_eq_getElem hj]
    rw [List.getD_eq_getElem _ _ hj]
    simp
  rw [hg]
  rfl

theorem accAfter_succ (oracle : Oracle) (days : Nat) (libs : List (Nat × Library)) (s j : Nat)
    (hj : j < libs.length) :
    accAfter oracle days libs s (j + 1)
      = calcStep oracle days (accAfter oracle days libs s j) (j, libs.getD j default) := by
  unfold accAfter
  rw [enum_take_succ libs j hj, calcGo_append]
  rfl

theorem callAt_eq_oracle (oracle : Oracle) (days : Nat) (libs : List (Nat × Library))
    (s j : Nat) :
    callAt oracle days libs s j
      = oracle ((j, libs.getD j default) : Nat × Nat × Library).2.2 days
          (accAfter oracle days libs s j).start
          (accAfter oracle days libs s j).books_scanned := rfl

theorem accAfter_books_scanned (oracle : Oracle) (days : Nat) (libs : List (Nat × Library))
    (s : Nat) :
    ∀ j, j ≤ libs.length →
      (accAfter oracle days libs s j).books_scanned
        = (Finset.range j).biUnion
            (fun k => ((callAt oracle days libs s k).map Sum.inr).toFinset) := by
  intro j
  induction j with
  | zero => intro _; simp [accAfter_zero]
  | succ j ih =>
    intro hj1
    have hj : j < libs.length := Nat.lt_of_succ_le hj1
    rw [accAfter_succ oracle days libs s j hj, Finset.range_succ, Finset.biUnion_insert,
      ← ih (Nat.le_of_lt hj)]
    by_cases h : callAt oracle days libs s j = []
    · rw [calcStep_books_scanned_of_empty oracle days _ _ ((callAt_eq_oracle _ _ _ _ _).symm.trans h)]
      rw [h]
      simp
    · rw [calcStep_books_scanned_of_ne oracle days _ _
        (fun hc => h ((callAt_eq_oracle _ _ _ _ _).trans hc))]
      rw [← callAt_eq_oracle oracle days libs s j]
      exact Finset.union_comm _ _

theorem accAfter_split_char (oracle : Oracle) (days : Nat) (libs : List (Nat × Library))
    (s : Nat) :
    ∀ j, j ≤ libs.length →
      ((∀ k, k < j → callAt oracle days libs s k = [])
          ∧ (accAfter oracle days libs s j).split = s)
      ∨ (∃ m, m < j ∧ callAt oracle days libs s m ≠ []
          ∧ (∀ k, m < k → k < j → callAt oracle days libs s k = [])
          ∧ (accAfter oracle days libs s j).split = m + 1) := by
  intro j
  induction j with
  | zero =>
    intro _
    exact Or.inl ⟨fun k hk => absurd hk (Nat.not_lt_zero k), rfl⟩
  | succ j ih =>
    intro hj1
    have hj : j < libs.length := Nat.lt_of_succ_le hj1
    have hacc := accAfter_succ oracle days libs s j hj
    by_cases h : callAt oracle days libs s j = []
    · have hsplit : (accAfter oracle days libs s (j + 1)).split
          = (accAfter oracle days libs s j).split := by
        rw [hacc]
        exact calcStep_split_of_empty oracle days _ _
          ((callAt_eq_oracle oracle days libs s j).symm.trans h)
      rcases ih (Nat.le_of_lt hj) with ⟨hall, hs⟩ | ⟨m, hm, hne, hafter, hs⟩
      · refine Or.inl ⟨?_, hsplit.trans hs⟩
        intro k hk
        rcases Nat.lt_succ_iff_lt_or_eq.mp hk with hk' | hk'
        · exact hall k hk'
        · rw [hk']; exact h
      · refine Or.inr ⟨m, Nat.lt_succ_of_lt hm, hne, ?_, hsplit.trans hs⟩
        intro k hk1 hk2
        rcases Nat.lt_succ_iff_lt_or_eq.mp hk2 with hk' | hk'
        · exact hafter k hk1 hk'
        · rw [hk']; exact h
    · have hsplit : (accAfter oracle days libs s (j + 1)).split = j + 1 := by
        rw [hacc]
        exact calcStep_split_of_ne oracle days _ _
          (fun hc => h ((callAt_eq_oracle oracle days libs s j).trans hc))
      refine Or.inr ⟨j, Nat.lt_succ_self j, h, ?_, hsplit⟩
      intro k hk1 hk2
      exact absurd hk2 (by omega)

theorem enum_take_length (libs : List (Nat × Library)) :
    libs.enum.take libs.length = libs.enum := by
  have h : libs.enum.length = libs.length := by
    simp [List.enum_eq_enumFrom, List.enumFrom_length]
  rw [← h, List.take_length]

theorem calculate_split_eq_accAfter (c : Chromosome) (oracle : Oracle) :
    (c.calculate_split_and_score oracle).split
      = (accAfter oracle c.days c.libraries c.split c.libraries.length).split := by
  rw [calculate_def]
  unfold accAfter
  rw [enum_take_length]

/-! ## Mutation lemmas -/

theorem mutate_def (c : Chromosome) (oracle : Oracle) (a b : Nat) :
    c.mutate oracle a b
      = if (c.calculate_split_and_score oracle).split = 0 then none
        else if (c.calculate_split_and_score oracle).libraries.length
            ≤ (if (c.calculate_split_and_score oracle).split
                  ≠ (c.calculate_split_and_score oracle).libraries.length
               then (c.calculate_split_and_score oracle).split else 0)
          then none
        else if (c.calculate_split_and_score oracle).score
            < scoreFn oracle (swapAt (c.calculate_split_and_score oracle).libraries a b)
                (c.calculate_split_and_score oracle).days
          then some { c.calculate_split_and_score oracle with
                      libraries := swapAt (c.calculate_split_and_score oracle).libraries a b }
          else some (c.calculate_split_and_score oracle) := rfl

theorem mutateOnce_score (oracle : Oracle) (ho : OracleIgnoresCounts oracle) (c c2 : Chromosome)
    (ab : Nat × Nat) (h : mutateOnce oracle c ab = some c2) :
    scoreFn oracle c.libraries c.days ≤ scoreFn oracle c2.libraries c2.days
      ∧ c2.days = c.days := by
  unfold mutateOnce at h
  cases hm : c.mutate oracle ab.1 ab.2 with
  | none => rw [hm] at h; exact absurd h (by simp)
  | some c3 =>
    rw [hm] at h
    simp only [Option.map_some'] at h
    have hc2 : c2 = c3.calculate_split_and_score oracle := by
      injection h with h'
      exact h'.symm
    have hc2days : c2.days = c3.days := by rw [hc2, calculate_days]
    have hc2score : scoreFn oracle c2.libraries c2.days = scoreFn oracle c3.libraries c3.days := by
      rw [hc2days]
      refine scoreFn_strip_congr oracle ho ?_ c3.days
      rw [hc2]
      exact calculate_strip c3 oracle
    rw [mutate_def] at hm
    by_cases h0 : (c.calculate_split_and_score oracle).split = 0
    · rw [if_pos h0] at hm; exact absurd hm (by simp)
    · rw [if_neg h0] at hm
      by_cases h1 : (c.calculate_split_and_score oracle).libraries.length
          ≤ (if (c.calculate_split_and_score oracle).split
                ≠ (c.calculate_split_and_score oracle).libraries.length
             then (c.calculate_split_and_score oracle).split else 0)
      · rw [if_pos h1] at hm
        exact absurd hm (by simp)
      · rw [if_neg h1] at hm
        by_cases hacc : (c.calculate_split_and_score oracle).score
            < scoreFn oracle (swapAt (c.calculate_split_and_score oracle).libraries ab.1 ab.2)
                (c.calculate_split_and_score oracle).days
        · rw [if_pos hacc] at hm
          have hc3 : c3 = { c.calculate_split_and_score oracle with
              libraries := swapAt (c.calculate_split_and_score oracle).libraries ab.1 ab.2 } := by
            injection hm with h'
            exact h'.symm
          refine ⟨?_, ?_⟩
          · rw [hc2score, hc3]
            dsimp only
            rw [calculate_score_eq c oracle] at hacc
            rw [calculate_days c oracle] at hacc
            rw [calculate_days c oracle]
            exact Nat.le_of_lt hacc
          · rw [hc2days, hc3]
            dsimp only
            exact calculate_days c oracle
        · rw [if_neg hacc] at hm
          have hc3 : c3 = c.calculate_split_and_score oracle := by
            injection hm with h'
            exact h'.symm
          refine ⟨?_, ?_⟩
          · rw [hc2score, hc3]
            rw [calculate_days c oracle]
            exact Nat.le_of_eq (scoreFn_strip_congr oracle ho (calculate_strip c oracle) c.days).symm
          · rw [hc2days, hc3]
            exact calculate_days c oracle

theorem mutateMany_score (oracle : Oracle) (ho : OracleIgnoresCounts oracle) :
    ∀ (draws : List (Nat × Nat)) (c c2 : Chromosome), mutateMany oracle c draws = some c2 →
      scoreFn oracle c.libraries c.days ≤ scoreFn oracle c2.libraries c2.days := by
  intro draws
  induction draws with
  | nil =>
    intro c c2 h
    unfold mutateMany at h
    injection h with h'
    rw [h']
  | cons ab rest ih =>
    intro c c2 h
    unfold mutateMany at h
    cases hm : mutateOnce oracle c ab with
    | none => rw [hm] at h; exact absurd h (by simp)
    | some c3 =>
      rw [hm] at h
      exact Nat.le_trans (mutateOnce_score oracle ho c c3 ab hm).1 (ih c3 c2 h)

theorem calculate_split_le (c : Chromosome) (oracle : Oracle)
    (h : c.split ≤ c.libraries.length) :
    (c.calculate_split_and_score oracle).split ≤ c.libraries.length := by
  rw [calculate_split_eq_accAfter]
  rcases accAfter_split_char oracle c.days c.libraries c.split c.libraries.length
      (Nat.le_refl _) with ⟨_, hs⟩ | ⟨m, hm, _, _, hs⟩
  · rw [hs]; exact h
  · rw [hs]; omega

theorem mutate_ids_perm (oracle : Oracle) (c c3 : Chromosome) (a b : Nat)
    (hsplit : c.split ≤ c.libraries.length)
    (ha : a < (c.calculate_split_and_score oracle).split)
    (hb : b < c.libraries.length)
    (h : c.mutate oracle a b = some c3) :
    (c3.libraries.map Prod.fst).Perm (c.libraries.map Prod.fst) := by
  have hids := calculate_ids c oracle
  have hlen := calculate_length c oracle
  have hsplit2 := calculate_split_le c oracle hsplit
  have ha' : a < (c.calculate_split_and_score oracle).libraries.length := by omega
  have hb' : b < (c.calculate_split_and_score oracle).libraries.length := by omega
  rw [mutate_def] at h
  by_cases h0 : (c.calculate_split_and_score oracle).split = 0
  · rw [if_pos h0] at h; exact absurd h (by simp)
  · rw [if_neg h0] at h
    by_cases h1 : (c.calculate_split_and_score oracle).libraries.length
        ≤ (if (c.calculate_split_and_score oracle).split
              ≠ (c.calculate_split_and_score oracle).libraries.length
           then (c.calculate_split_and_score oracle).split else 0)
    · rw [if_pos h1] at h
      exact absurd h (by simp)
    · rw [if_neg h1] at h
      by_cases hacc : (c.calculate_split_and_score oracle).score
          < scoreFn oracle (swapAt (c.calculate_split_and_score oracle).libraries a b)
              (c.calculate_split_and_score oracle).days
      · rw [if_pos hacc] at h
        have hc3 : c3 = { c.calculate_split_and_score oracle with
            libraries := swapAt (c.calculate_split_and_score oracle).libraries a b } := by
          injection h with h'
          exact h'.symm
        rw [hc3]
        dsimp only
        have hp := swapAt_perm (c.calculate_split_and_score oracle).libraries a b ha' hb'
        have hp2 := hp.map Prod.fst
        rw [hids] at hp2
        exact hp2
      · rw [if_neg hacc] at h
        have hc3 : c3 = c.calculate_split_and_score oracle := by
          injection h with h'
          exact h'.symm
        rw [hc3, hids]

/-! ## Reorder lemmas -/

theorem kickoffs_lt (c : Chromosome) : ∀ i ∈ kickoffs c, i < c.split := by
  intro i hi
  unfold kickoffs at hi
  exact List.mem_range.mp (List.mem_of_mem_filter hi)

theorem kickoffs_reverse_pairwise (c : Chromosome) :
    (kickoffs c).reverse.Pairwise (fun i j => i > j) := by
  rw [List.pairwise_reverse]
  exact (List.pairwise_lt_range c.split).filter _

theorem reorder_split (c : Chromosome) : (c.reorder_libraries).split = c.split := rfl

theorem reorder_days (c : Chromosome) : (c.reorder_libraries).days = c.days := rfl

theorem reorder_libraries_eq_foldl (c : Chromosome) :
    (c.reorder_libraries).libraries = (kickoffs c).reverse.foldl popAppend c.libraries := rfl

theorem reorder_perm (c : Chromosome) (h : c.split ≤ c.libraries.length) :
    ((c.reorder_libraries).libraries).Perm c.libraries := by
  rw [reorder_libraries_eq_foldl]
  apply foldl_popAppend_perm
  intro i hi
  rw [List.mem_reverse] at hi
  exact Nat.lt_of_lt_of_le (kickoffs_lt c i hi) h

theorem reorder_ids_perm (c : Chromosome) (h : c.split ≤ c.libraries.length) :
    ((c.reorder_libraries).libraries.map Prod.fst).Perm (c.libraries.map Prod.fst) :=
  (reorder_perm c h).map Prod.fst

theorem reorder_characterization_general (c : Chromosome) (h : c.split ≤ c.libraries.length) :
    (c.reorder_libraries).libraries
      = ((c.libraries.enum.filter (fun p => decide (p.1 ∉ kickoffs c))).map Prod.snd)
        ++ (kickoffs c).reverse.map (fun j => c.libraries.getD j default) := by
  rw [reorder_libraries_eq_foldl]
  have hb : ∀ i ∈ (kickoffs c).reverse, i < c.libraries.length := by
    intro i hi
    rw [List.mem_reverse] at hi
    exact Nat.lt_of_lt_of_le (kickoffs_lt c i hi) h
  rw [foldl_popAppend_eq (kickoffs c).reverse c.libraries (kickoffs_reverse_pairwise c) hb]
  have hc : c.libraries.enum.filter (fun p => decide (p.1 ∉ (kickoffs c).reverse))
      = c.libraries.enum.filter (fun p => decide (p.1 ∉ kickoffs c)) := by
    apply List.filter_congr
    intro p _
    simp [List.mem_reverse]
  rw [hc]

/-! ## Crossover lemmas -/

theorem perm_head_filter {A B : List Nat} (hB : B.Nodup) (hA : A.Nodup)
    (hsub : ∀ a ∈ A, a ∈ B) :
    (A ++ B.filter (fun x => decide (x ∉ A))).Perm B := by
  have hnd : (A ++ B.filter (fun x => decide (x ∉ A))).Nodup := by
    refine List.Nodup.append hA (hB.filter _) ?_
    intro a haA haF
    have h1 := List.of_mem_filter haF
    simp only [decide_eq_true_eq] at h1
    exact h1 haA
  rw [List.perm_ext_iff_of_nodup hnd hB]
  intro a
  constructor
  · intro ha
    rcases List.mem_append.mp ha with h | h
    · exact hsub a h
    · exact (List.mem_filter.mp h).1
  · intro ha
    by_cases hA' : a ∈ A
    · exact List.mem_append.mpr (Or.inl hA')
    · refine List.mem_append.mpr (Or.inr ?_)
      rw [List.mem_filter]
      exact ⟨ha, by simpa using hA'⟩

theorem map_fst_filter_not_mem (l : List (Nat × Library)) (s : Finset Nat) :
    (l.filter (fun p => decide (p.1 ∉ s))).map Prod.fst
      = (l.map Prod.fst).filter (fun x => decide (x ∉ s)) := by
  rw [List.filter_map]
  rfl

theorem crossover_child_ids_perm (apLibs bpLibs : List (Nat × Library)) (point : Nat)
    (hndA : (apLibs.map Prod.fst).Nodup)
    (hperm : (apLibs.map Prod.fst).Perm (bpLibs.map Prod.fst)) :
    ((apLibs.take point
      ++ bpLibs.filter
          (fun p => decide (p.1 ∉ ((apLibs.take point).map Prod.fst).toFinset))).map
        Prod.fst).Perm (bpLibs.map Prod.fst) := by
  rw [List.map_append, map_fst_filter_not_mem]
  have hcond : (bpLibs.map Prod.fst).filter
        (fun x => decide (x ∉ ((apLibs.take point).map Prod.fst).toFinset))
      = (bpLibs.map Prod.fst).filter
        (fun x => decide (x ∉ (apLibs.take point).map Prod.fst)) := by
    apply List.filter_congr
    intro x _
    simp [List.mem_toFinset]
  rw [hcond, List.map_take]
  apply perm_head_filter
  · exact hperm.nodup_iff.mp hndA
  · exact (List.take_sublist point (apLibs.map Prod.fst)).nodup hndA
  · intro a ha
    exact hperm.subset (List.mem_of_mem_take ha)

theorem crossover_ok_libraries (a b : Chromosome) (point : Nat) (ch1 ch2 : Chromosome)
    (h : crossover a b point = .ok (ch1, ch2)) :
    ch1.libraries
        = (a.reorder_libraries).libraries.take point
          ++ (b.reorder_libraries).libraries.filter
              (fun p => decide
                (p.1 ∉ (((a.reorder_libraries).libraries.take point).map Prod.fst).toFinset))
      ∧ ch2.libraries
        = (b.reorder_libraries).libraries.take point
          ++ (a.reorder_libraries).libraries.filter
              (fun p => decide
                (p.1 ∉ (((b.reorder_libraries).libraries.take point).map Prod.fst).toFinset)) := by
  unfold crossover at h
  dsimp only at h
  split at h
  · exact absurd h (by simp)
  · split at h
    · injection h with h'
      have hfst := congrArg Prod.fst h'
      have hsnd := congrArg Prod.snd h'
      dsimp only at hfst hsnd
      constructor
      · rw [← hfst]
      · rw [← hsnd]
    · exact absurd h (by simp)

theorem crossover_children_ids (a b : Chromosome) (point : Nat) (ch1 ch2 : Chromosome)
    (hva : a.Valid) (hvb : b.Valid)
    (hperm : (a.libraries.map Prod.fst).Perm (b.libraries.map Prod.fst))
    (h : crossover a b point = .ok (ch1, ch2)) :
    (ch1.libraries.map Prod.fst).Perm (a.libraries.map Prod.fst)
      ∧ (ch2.libraries.map Prod.fst).Perm (a.libraries.map Prod.fst) := by
  obtain ⟨h1, h2⟩ := crossover_ok_libraries a b point ch1 ch2 h
  have hpa := reorder_ids_perm a hva.1
  have hpb := reorder_ids_perm b hvb.1
  have hndA : ((a.reorder_libraries).libraries.map Prod.fst).Nodup := hpa.nodup_iff.mpr hva.2
  have hndB : ((b.reorder_libraries).libraries.map Prod.fst).Nodup := hpb.nodup_iff.mpr hvb.2
  have hAB : ((a.reorder_libraries).libraries.map Prod.fst).Perm
      ((b.reorder_libraries).libraries.map Prod.fst) := hpa.trans (hperm.trans hpb.symm)
  have hc1 := crossover_child_ids_perm (a.reorder_libraries).libraries
    (b.reorder_libraries).libraries point hndA hAB
  have hc2 := crossover_child_ids_perm (b.reorder_libraries).libraries
    (a.reorder_libraries).libraries point hndB hAB.symm
  constructor
  · rw [h1]
    exact hc1.trans (hpb.trans hperm.symm)
  · rw [h2]
    exact hc2.trans hpa

theorem crossover_ok_iff (a b : Chromosome) (point : Nat)
    (hva : a.Valid) (hvb : b.Valid)
    (hperm : (a.libraries.map Prod.fst).Perm (b.libraries.map Prod.fst)) :
    (∃ pr, crossover a b point = Except.ok pr) ↔ 2 ≤ min a.split b.split := by
  unfold crossover
  dsimp only
  by_cases hlt : min (a.reorder_libraries).split (b.reorder_libraries).split < 2
  · rw [if_pos hlt]
    rw [reorder_split, reorder_split] at hlt
    constructor
    · rintro ⟨pr, hpr⟩
      exact absurd hpr (by simp)
    · intro h2
      omega
  · rw [if_neg hlt]
    rw [reorder_split, reorder_split] at hlt
    have hpa := reorder_ids_perm a hva.1
    have hpb := reorder_ids_perm b hvb.1
    have hndA : ((a.reorder_libraries).libraries.map Prod.fst).Nodup := hpa.nodup_iff.mpr hva.2
    have hndB : ((b.reorder_libraries).libraries.map Prod.fst).Nodup := hpb.nodup_iff.mpr hvb.2
    have hAB : ((a.reorder_libraries).libraries.map Prod.fst).Perm
        ((b.reorder_libraries).libraries.map Prod.fst) := hpa.trans (hperm.trans hpb.symm)
    have hc1 := crossover_child_ids_perm (a.reorder_libraries).libraries
      (b.reorder_libraries).libraries point hndA hAB
    have hc2 := crossover_child_ids_perm (b.reorder_libraries).libraries
      (a.reorder_libraries).libraries point hndB hAB.symm
    have hlen1 : ((a.reorder_libraries).libraries.take point
        ++ (b.reorder_libraries).libraries.filter
            (fun p => decide
              (p.1 ∉ (((a.reorder_libraries).libraries.take point).map Prod.fst).toFinset))).length
        = (b.reorder_libraries).libraries.length := by
      have h1 := hc1.length_eq
      simpa using h1
    have hlen2 : ((b.reorder_libraries).libraries.take point
        ++ (a.reorder_libraries).libraries.filter
            (fun p => decide
              (p.1 ∉ (((b.reorder_libraries).libraries.take point).map Prod.fst).toFinset))).length
        = (a.reorder_libraries).libraries.length := by
      have h1 := hc2.length_eq
      simpa using h1
    have hlen3 : (a.reorder_libraries).libraries.length
        = (b.reorder_libraries).libraries.length := by
      have h1 := hAB.length_eq
      simpa using h1
    rw [if_pos ⟨by omega, by omega, hlen3⟩]
    constructor
    · intro _
      omega
    · intro _
      exact ⟨_, rfl⟩

/-! ## Tournament lemmas -/

theorem tournamentFold_spec :
    ∀ (l : List Chromosome) (n : Nat) (m : Nat × Nat),
      (tournamentFold m (l.enumFrom n) = m ∧ ∀ x ∈ l, x.score ≤ m.2)
      ∨ (∃ j, j < l.length
          ∧ tournamentFold m (l.enumFrom n) = (n + j, (l.getD j default).score)
          ∧ m.2 < (l.getD j default).score
          ∧ (∀ x ∈ l, x.score ≤ (l.getD j default).score)
          ∧ (∀ i, i < j → (l.getD i default).score < (l.getD j default).score)) := by
  intro l
  induction l with
  | nil =>
    intro n m
    exact Or.inl ⟨rfl, by simp⟩
  | cons x xs ih =>
    intro n m
    rw [List.enumFrom_cons]
    have hstep : tournamentFold m ((n, x) :: xs.enumFrom (n + 1))
        = tournamentFold (if m.2 < x.score then (n, x.score) else m) (xs.enumFrom (n + 1)) := rfl
    rw [hstep]
    by_cases hx : m.2 < x.score
    · rw [if_pos hx]
      rcases ih (n + 1) (n, x.score) with ⟨heq, hle⟩ | ⟨j, hj, heq, hlt, hall, hearlier⟩
      · refine Or.inr ⟨0, by simp, ?_, by simpa using hx, ?_, ?_⟩
        · rw [heq]
          simp
        · intro y hy
          rcases List.mem_cons.mp hy with h | h
          · rw [h]; simp
          · simpa using hle y h
        · intro i hi
          exact absurd hi (Nat.not_lt_zero i)
      · refine Or.inr ⟨j + 1, by simpa using hj, ?_, ?_, ?_, ?_⟩
        · rw [heq]
          have harith : (n + 1) + j = n + (j + 1) := by omega
          rw [harith]
          simp
        · simp only [List.getD_cons_succ]
          exact Nat.lt_trans hx hlt
        · intro y hy
          rcases List.mem_cons.mp hy with h | h
          · rw [h]
            simp only [List.getD_cons_succ]
            exact Nat.le_of_lt hlt
          · simp only [List.getD_cons_succ]
            exact hall y h
        · intro i hi
          cases i with
          | zero =>
            simp only [List.getD_cons_zero, List.getD_cons_succ]
            exact hlt
          | succ i =>
            simp only [List.getD_cons_succ]
            exact hearlier i (by omega)
    · rw [if_neg hx]
      have hxle : x.score ≤ m.2 := Nat.le_of_not_lt hx
      rcases ih (n + 1) m with ⟨heq, hle⟩ | ⟨j, hj, heq, hlt, hall, hearlier⟩
      · refine Or.inl ⟨heq, ?_⟩
        intro y hy
        rcases List.mem_cons.mp hy with h | h
        · rw [h]; exact hxle
        · exact hle y h
      · refine Or.inr ⟨j + 1, by simpa using hj, ?_, ?_, ?_, ?_⟩
        · rw [heq]
          have harith : (n + 1) + j = n + (j + 1) := by omega
          rw [harith]
          simp
        · simp only [List.getD_cons_succ]
          exact hlt
        · intro y hy
          rcases List.mem_cons.mp hy with h | h
          · rw [h]
            simp only [List.getD_cons_succ]
            exact Nat.le_of_lt (Nat.lt_of_le_of_lt hxle hlt)
          · simp only [List.getD_cons_succ]
            exact hall y h
        · intro i hi
          cases i with
          | zero =>
            simp only [List.getD_cons_zero, List.getD_cons_succ]
            exact Nat.lt_of_le_of_lt hxle hlt
          | succ i =>
            simp only [List.getD_cons_succ]
            exact hearlier i (by omega)

theorem tournament_winner (chosen : List Chromosome) (hne : chosen ≠ []) :
    ∃ w, w < chosen.length ∧ tournament chosen = chosen.getD w default
      ∧ (∀ x ∈ chosen, x.score ≤ (chosen.getD w default).score)
      ∧ (∀ i, i < w → (chosen.getD i default).score < (chosen.getD w default).score) := by
  have hspec := tournamentFold_spec chosen 0 (0, 0)
  rw [← List.enum_eq_enumFrom] at hspec
  unfold tournament
  rcases hspec with ⟨heq, hle⟩ | ⟨j, hj, heq, _, hall, hearlier⟩
  · refine ⟨0, List.length_pos.mpr hne, ?_, ?_, ?_⟩
    · rw [heq]
    · intro x hx
      exact Nat.le_trans (hle x hx) (Nat.zero_le _)
    · intro i hi
      exact absurd hi (Nat.not_lt_zero i)
  · refine ⟨j, hj, ?_, hall, hearlier⟩
    rw [heq]
    simp

/-! ## Claim C1 -/

/-- Example oracle for C1: claims every book of the resource. -/
def oracleEx1 : Oracle := fun lib _ _ _ => lib.books

/-- Example chromosome for C1: two libraries, the first offering book 7 of
score 3. -/
def cEx1 : Chromosome :=
  ⟨10, [(0, ⟨0, [(7, 3)], 0⟩), (1, ⟨0, [], 0⟩)], 0, 0⟩

/-- C1 counterexample: after position 0 picks the pair `(7, 3)`, the
claimed-items set passed to the Oracle at position 1 is the singleton of
the `(id, score)` pair `Sum.inr (7, 3)`, not the singleton of the item-id
`Sum.inl 7` that the claim asserts. -/
theorem evaluator_claimed_set_counterexample :
    callAt oracleEx1 cEx1.days cEx1.libraries cEx1.split 0 = [(7, 3)]
      ∧ (accAfter oracleEx1 cEx1.days cEx1.libraries cEx1.split 1).books_scanned
          = ({Sum.inr (7, 3)} : Finset PyVal)
      ∧ (accAfter oracleEx1 cEx1.days cEx1.libraries cEx1.split 1).books_scanned
          ≠ ({Sum.inl 7} : Finset PyVal) := by
  refine ⟨rfl, by decide, by decide⟩

/-- C1 (amended): during fitness evaluation, when a resource's Oracle call
returns a non-empty picked list the evaluator adds the picked
`(item_id, score)` pairs themselves (`set(books)`, line 38) — not the bare
item-ids — to the claimed set, so the Oracle call at every position `j`
receives exactly the union of the pair-sets picked at all earlier
positions. -/
theorem evaluator_claimed_set_pairs (oracle : Oracle) (c : Chromosome) (j : Nat)
    (hj : j ≤ c.libraries.length) :
    (accAfter oracle c.days c.libraries c.split j).books_scanned
      = (Finset.range j).biUnion
          (fun k => ((callAt oracle c.days c.libraries c.split k).map Sum.inr).toFinset) :=
  accAfter_books_scanned oracle c.days c.libraries c.split j hj

/-- C1 witness: the amended theorem applied to the concrete evaluation of
`cEx1` at position 1. -/
theorem evaluator_claimed_set_pairs_witness :
    (accAfter oracleEx1 cEx1.days cEx1.libraries cEx1.split 1).books_scanned
      = (Finset.range 1).biUnion
          (fun k => ((callAt oracleEx1 cEx1.days cEx1.libraries cEx1.split k).map
            Sum.inr).toFinset) :=
  evaluator_claimed_set_pairs oracleEx1 cEx1 1 (by decide)

/-! ## Claim C2 -/

/-- C2: the library-id multiset of a valid Individual is preserved by a
mutation attempt (with the index draws in the ranges `randrange` uses), by
the reordering pre-pass, and by both children of a crossover of two valid
parents (a `List.Perm` of the id lists also forces equal lengths). -/
theorem permutation_invariants :
    (∀ (oracle : Oracle) (c c2 : Chromosome) (a b : Nat),
        c.split ≤ c.libraries.length →
        a < (c.calculate_split_and_score oracle).split →
        b < c.libraries.length →
        c.mutate oracle a b = some c2 →
        (c2.libraries.map Prod.fst).Perm (c.libraries.map Prod.fst))
    ∧ (∀ c : Chromosome, c.split ≤ c.libraries.length →
        ((c.reorder_libraries).libraries.map Prod.fst).Perm (c.libraries.map Prod.fst))
    ∧ (∀ (a b : Chromosome) (point : Nat) (ch1 ch2 : Chromosome),
        a.Valid → b.Valid →
        (a.libraries.map Prod.fst).Perm (b.libraries.map Prod.fst) →
        crossover a b point = .ok (ch1, ch2) →
        (ch1.libraries.map Prod.fst).Perm (a.libraries.map Prod.fst)
          ∧ (ch2.libraries.map Prod.fst).Perm (a.libraries.map Prod.fst)) := by
  refine ⟨?_, ?_, ?_⟩
  · intro oracle c c2 a b h1 h2 h3 h4
    exact mutate_ids_perm oracle c c2 a b h1 h2 h3 h4
  · intro c h
    exact reorder_ids_perm c h
  · intro a b point ch1 ch2 hva hvb hperm h
    exact crossover_children_ids a b point ch1 ch2 hva hvb hperm h

/-- Example oracle for C2. -/
def oracleEx2 : Oracle := fun lib _ _ _ => lib.books

/-- Example parent for C2. -/
def cEx2 : Chromosome :=
  ⟨10, [(0, ⟨1, [(7, 3)], 1⟩), (1, ⟨1, [(8, 2)], 1⟩)], 2, 0⟩

/-- Second example parent for C2 (a permutation of `cEx2`). -/
def cEx2p : Chromosome :=
  ⟨10, [(1, ⟨1, [(8, 2)], 1⟩), (0, ⟨1, [(7, 3)], 1⟩)], 2, 0⟩

/-- The result of the mutation attempt in the C2 witness. -/
def cEx2m : Chromosome :=
  ⟨10, [(0, ⟨1, [(7, 3)], 1⟩), (1, ⟨1, [(8, 2)], 1⟩)], 2, 5⟩

/-- First crossover child in the C2 witness. -/
def chEx2a : Chromosome :=
  ⟨10, [(0, ⟨1, [(7, 3)], 1⟩), (1, ⟨1, [(8, 2)], 1⟩)], 2, 0⟩

/-- Second crossover child in the C2 witness. -/
def chEx2b : Chromosome :=
  ⟨10, [(1, ⟨1, [(8, 2)], 1⟩), (0, ⟨1, [(7, 3)], 1⟩)], 2, 0⟩

/-- C2 witness: all three conjuncts applied at concrete inputs. -/
theorem permutation_invariants_witness :
    (cEx2m.libraries.map Prod.fst).Perm (cEx2.libraries.map Prod.fst)
      ∧ ((cEx2.reorder_libraries).libraries.map Prod.fst).Perm (cEx2.libraries.map Prod.fst)
      ∧ ((chEx2a.libraries.map Prod.fst).Perm (cEx2.libraries.map Prod.fst)
          ∧ (chEx2b.libraries.map Prod.fst).Perm (cEx2.libraries.map Prod.fst)) :=
  ⟨permutation_invariants.1 oracleEx2 cEx2 cEx2m 0 1 (by decide) (by decide) (by decide)
      (by decide),
   permutation_invariants.2.1 cEx2 (by decide),
   permutation_invariants.2.2 cEx2 cEx2p 1 chEx2a chEx2b ⟨by decide, by decide⟩
      ⟨by decide, by decide⟩ (by decide) (by rfl)⟩

/-! ## Claim C3 -/

/-- The reordering that claim C3 describes, stated from the spec's words:
every zero-claimed-count resource inside the split prefix moves to the end
of the ordering, the moved resources keeping their original relative order
and the remaining resources keeping theirs. -/
def reorderClaimOrder (c : Chromosome) : List (Nat × Library) :=
  ((c.libraries.enum.filter (fun p => decide (p.1 ∉ kickoffs c))).map Prod.snd)
    ++ (kickoffs c).map (fun j => c.libraries.getD j default)

/-- Example chromosome for C3: four libraries with claimed counts
`[1, 0, 0, 1]` and split 4, so positions 1 and 2 are moved. -/
def cEx3 : Chromosome :=
  ⟨10, [(0, ⟨0, [], 1⟩), (1, ⟨0, [], 0⟩), (2, ⟨0, [], 0⟩), (3, ⟨0, [], 1⟩)], 4, 0⟩

/-- C3 counterexample: the code pops the zero-count indices in descending
order and appends each to the end, so the moved resources 1 and 2 end up
in reversed relative order `[…, 2, 1]`, not in the claimed order
`[…, 1, 2]`. -/
theorem reorder_counterexample :
    (cEx3.reorder_libraries).libraries ≠ reorderClaimOrder cEx3
      ∧ (cEx3.reorder_libraries).libraries.map Prod.fst = [0, 3, 2, 1]
      ∧ (reorderClaimOrder cEx3).map Prod.fst = [0, 3, 1, 2] := by
  refine ⟨by decide, by decide, by decide⟩

/-- C3 (amended): the reordering pre-pass moves exactly the
zero-claimed-count resources of the split prefix (the `kickoffs`) to the
end of the ordering; the resources that stay keep their relative order,
while the moved resources appear in reverse of their original relative
order. -/
theorem reorder_moves_zero_claimed_reversed (c : Chromosome)
    (h : c.split ≤ c.libraries.length) :
    (c.reorder_libraries).libraries
      = ((c.libraries.enum.filter (fun p => decide (p.1 ∉ kickoffs c))).map Prod.snd)
        ++ (kickoffs c).reverse.map (fun j => c.libraries.getD j default) :=
  reorder_characterization_general c h

/-- C3 witness: the amended characterization evaluated on `cEx3`. -/
theorem reorder_moves_zero_claimed_reversed_witness :
    (cEx3.reorder_libraries).libraries
      = ((cEx3.libraries.enum.filter (fun p => decide (p.1 ∉ kickoffs cEx3))).map Prod.snd)
        ++ (kickoffs cEx3).reverse.map (fun j => cEx3.libraries.getD j default) :=
  reorder_moves_zero_claimed_reversed cEx3 (by decide)

/-! ## Claim C4 -/

/-- Example oracle for C4: never claims anything. -/
def oracleEx4 : Oracle := fun _ _ _ _ => []

/-- Example chromosome for C4: one library and a stale split of 5. -/
def cEx4 : Chromosome := ⟨10, [(0, ⟨1, [(7, 3)], 0⟩)], 5, 0⟩

/-- C4 counterexample: the evaluator never resets `split`.  With an Oracle
that claims nothing at any position, the run keeps the stale value 5
instead of returning 0 as the claim asserts. -/
theorem split_not_reset_counterexample :
    callAt oracleEx4 cEx4.days cEx4.libraries cEx4.split 0 = []
      ∧ (cEx4.calculate_split_and_score oracleEx4).split = 5
      ∧ (cEx4.calculate_split_and_score oracleEx4).split ≠ 0 := by
  refine ⟨rfl, by decide, by decide⟩

/-- C4 (amended): on return from the evaluator, `split` equals the 1-based
position of the last resource whose Oracle call returned a non-empty
claim; when no resource contributed, `split` keeps the value it had before
the evaluation (the evaluator does not reset it to 0). -/
theorem split_last_contributor (oracle : Oracle) (c : Chromosome) :
    ((∀ k, k < c.libraries.length → callAt oracle c.days c.libraries c.split k = []) →
      (c.calculate_split_and_score oracle).split = c.split)
    ∧ (∀ m, m < c.libraries.length → callAt oracle c.days c.libraries c.split m ≠ [] →
        (∀ k, m < k → k < c.libraries.length →
          callAt oracle c.days c.libraries c.split k = []) →
        (c.calculate_split_and_score oracle).split = m + 1) := by
  constructor
  · intro hall
    rw [calculate_split_eq_accAfter]
    rcases accAfter_split_char oracle c.days c.libraries c.split c.libraries.length
        (Nat.le_refl _) with ⟨_, hs⟩ | ⟨m, hm, hne, _, _⟩
    · exact hs
    · exact absurd (hall m hm) hne
  · intro m hm hne hafter
    rw [calculate_split_eq_accAfter]
    rcases accAfter_split_char oracle c.days c.libraries c.split c.libraries.length
        (Nat.le_refl _) with ⟨hall, _⟩ | ⟨m2, hm2, hne2, hafter2, hs2⟩
    · exact absurd (hall m hm) hne
    · rcases Nat.lt_trichotomy m m2 with h | h | h
      · exact absurd (hafter m2 h hm2) hne2
      · rw [hs2, h]
      · exact absurd (hafter2 m h hm) hne

/-- Contributing oracle for the C4 witness. -/
def oracleEx4b : Oracle := fun lib _ _ _ => lib.books

/-- Chromosome for the C4 witness: position 0 contributes, position 1 does
not. -/
def cEx4b : Chromosome := ⟨10, [(0, ⟨1, [(7, 3)], 0⟩), (1, ⟨1, [], 0⟩)], 5, 0⟩

/-- C4 witness: both branches of the amended theorem at concrete inputs —
the all-empty run keeps the stale split of `cEx4`, and the run on `cEx4b`
ends with split `0 + 1`. -/
theorem split_last_contributor_witness :
    (cEx4.calculate_split_and_score oracleEx4).split = cEx4.split
      ∧ (cEx4b.calculate_split_and_score oracleEx4b).split = 0 + 1 :=
  ⟨(split_last_contributor oracleEx4 cEx4).1 (fun k hk => rfl),
   (split_last_contributor oracleEx4b cEx4b).2 0 (by decide) (by decide)
      (by
        intro k hk1 hk2
        have hk3 : k = 1 := by
          have h2 : cEx4b.libraries.length = 2 := by decide
          omega
        rw [hk3]
        rfl)⟩

/-! ## Claim C5 -/

/-- C5: across any successful `mutate(ind, attempts)` call (the random
draws surfaced as `draws`, one per attempt), re-running the Evaluator
never yields a smaller score than the Evaluator gave the pre-call
ordering: each attempt replaces the ordering only when the candidate's
evaluated score is strictly greater.  The Oracle is assumed not to read
the `books_chosen_num` scratch field, as its contract specifies. -/
theorem mutation_score_monotone (oracle : Oracle) (ho : OracleIgnoresCounts oracle)
    (c c2 : Chromosome) (draws : List (Nat × Nat))
    (h : mutateMany oracle c draws = some c2) :
    scoreFn oracle c.libraries c.days ≤ scoreFn oracle c2.libraries c2.days :=
  mutateMany_score oracle ho draws c c2 h

/-- Example oracle for C5. -/
def oracleEx5 : Oracle := fun lib _ _ _ => lib.books

/-- Example chromosome for C5. -/
def cEx5 : Chromosome := ⟨10, [(0, ⟨1, [(7, 3)], 0⟩)], 0, 0⟩

/-- Result of `mutateMany` on `cEx5` with one attempt swapping index 0
with itself. -/
def cEx5w : Chromosome := ⟨10, [(0, ⟨1, [(7, 3)], 1⟩)], 1, 3⟩

/-- C5 witness: one concrete mutation attempt on `cEx5`. -/
theorem mutation_score_monotone_witness :
    scoreFn oracleEx5 cEx5.libraries cEx5.days
      ≤ scoreFn oracleEx5 cEx5w.libraries cEx5w.days :=
  mutation_score_monotone oracleEx5 (fun lib n days start claimed => rfl) cEx5 cEx5w
    [(0, 0)] (by rfl)

/-! ## Claim C6 -/

/-- C6: `tournament` returns a member of the sampled list (hence of the
population the sample was drawn from), and when the sample is the whole
population (the `k = len(population)` case, where `sample` returns a
permutation of it) the winner's score is the population maximum, the
winner being the earliest-sampled individual whose score equals that
maximum — every earlier-sampled individual scores strictly less, which
with an all-zero sample makes the first-sampled individual the winner. -/
theorem tournament_spec (population chosen : List Chromosome)
    (hne : chosen ≠ [])
    (hsub : ∀ x ∈ chosen, x ∈ population) :
    tournament chosen ∈ population
    ∧ (chosen.Perm population →
        (∀ x ∈ population, x.score ≤ (tournament chosen).score)
        ∧ ∃ w, w < chosen.length ∧ tournament chosen = chosen.getD w default
            ∧ ∀ i, i < w → (chosen.getD i default).score < (chosen.getD w default).score) := by
  obtain ⟨w, hw, heq, hall, hearlier⟩ := tournament_winner chosen hne
  have hmem : tournament chosen ∈ chosen := by
    rw [heq, List.getD_eq_getElem _ _ hw]
    exact List.getElem_mem hw
  refine ⟨hsub _ hmem, ?_⟩
  intro hperm
  refine ⟨?_, ⟨w, hw, heq, hearlier⟩⟩
  intro x hx
  rw [heq]
  exact hall x (hperm.mem_iff.mpr hx)

/-- Example chromosome for C6, score 1. -/
def cEx6a : Chromosome := ⟨0, [], 0, 1⟩

/-- Example chromosome for C6, score 2. -/
def cEx6b : Chromosome := ⟨0, [], 0, 2⟩

/-- C6 witness: the tournament over the two-element population, sampled in
full. -/
theorem tournament_spec_witness :
    tournament [cEx6a, cEx6b] ∈ [cEx6a, cEx6b]
      ∧ ((∀ x ∈ [cEx6a, cEx6b], x.score ≤ (tournament [cEx6a, cEx6b]).score)
          ∧ ∃ w, w < ([cEx6a, cEx6b] : List Chromosome).length
              ∧ tournament [cEx6a, cEx6b] = [cEx6a, cEx6b].getD w default
              ∧ ∀ i, i < w →
                  ([cEx6a, cEx6b].getD i default).score
                    < ([cEx6a, cEx6b].getD w default).score) :=
  ⟨(tournament_spec [cEx6a, cEx6b] [cEx6a, cEx6b] (by decide) (fun x hx => hx)).1,
   (tournament_spec [cEx6a, cEx6b] [cEx6a, cEx6b] (by decide) (fun x hx => hx)).2
      (List.Perm.refl _)⟩

/-! ## Claim C7 -/

/-- C7: `crossover` succeeds, returning two children, exactly when the
boundary `min(parentA.split, parentB.split)` — which the reordering
pre-pass does not change, `reorder_libraries` leaving `split` untouched —
is at least 2; for a smaller boundary `randrange(1, boundary)` raises
(`Except.error`, a fatal `ValueError`).  The parents are never modified:
the embedding operates on copies, mirroring the `deepcopy` in the code. -/
theorem crossover_fails_iff (a b : Chromosome) (point : Nat)
    (hva : a.Valid) (hvb : b.Valid)
    (hperm : (a.libraries.map Prod.fst).Perm (b.libraries.map Prod.fst)) :
    (∃ pr, crossover a b point = Except.ok pr) ↔ 2 ≤ min a.split b.split :=
  crossover_ok_iff a b point hva hvb hperm

/-- Example parent for C7, split 2. -/
def cEx7a : Chromosome :=
  ⟨10, [(0, ⟨1, [(7, 3)], 1⟩), (1, ⟨1, [(8, 2)], 1⟩), (2, ⟨1, [], 1⟩)], 2, 0⟩

/-- Example parent for C7, split 3, a permutation of `cEx7a`. -/
def cEx7b : Chromosome :=
  ⟨10, [(2, ⟨1, [], 1⟩), (1, ⟨1, [(8, 2)], 1⟩), (0, ⟨1, [(7, 3)], 1⟩)], 3, 0⟩

/-- Example parent for C7 with split 1 (crossover must fail on it). -/
def cEx7c : Chromosome :=
  ⟨10, [(0, ⟨1, [(7, 3)], 1⟩), (1, ⟨1, [(8, 2)], 1⟩), (2, ⟨1, [], 1⟩)], 1, 0⟩

/-- C7 witness: the equivalence at a succeeding pair (boundary 2) and at a
failing pair (boundary 1). -/
theorem crossover_fails_iff_witness :
    ((∃ pr, crossover cEx7a cEx7b 1 = Except.ok pr) ↔ 2 ≤ min cEx7a.split cEx7b.split)
      ∧ ((∃ pr, crossover cEx7c cEx7b 1 = Except.ok pr) ↔ 2 ≤ min cEx7c.split cEx7b.split) :=
  ⟨crossover_fails_iff cEx7a cEx7b 1 ⟨by decide, by decide⟩ ⟨by decide, by decide⟩ (by decide),
   crossover_fails_iff cEx7c cEx7b 1 ⟨by decide, by decide⟩ ⟨by decide, by decide⟩ (by decide)⟩

/-! ## Claim C8 -/

theorem flatten_length (pre : List (Chromosome × Chromosome)) :
    (flatten pre).length = 2 * pre.length := by
  unfold flatten
  induction pre with
  | nil => rfl
  | cons p ps ih =>
    rw [List.flatMap_cons, List.length_append, ih, List.length_cons]
    simp
    omega

/-- C8 counterexample: with population size 3 the selection+crossover
phase builds `3 // 2 = 1` children pair, so flattening yields 2
individuals, not 3. -/
theorem population_size_odd_counterexample :
    (List.replicate (3 / 2) ((default : Chromosome), (default : Chromosome))).length = 3 / 2
      ∧ (flatten (List.replicate (3 / 2) (default, default))).length ≠ 3 := by
  refine ⟨by decide, by decide⟩

/-- C8 (amended): for every even population size of at least 2, flattening
the `size / 2` children pairs produced by the selection+crossover phase
yields exactly `size` individuals, and the mutation phase (a map over the
population) preserves that count into best-tracking. -/
theorem population_size_even (size : Nat) (pre : List (Chromosome × Chromosome))
    (mf : Chromosome → Chromosome)
    (hsize : 2 ≤ size) (heven : size % 2 = 0) (hpre : pre.length = size / 2) :
    (flatten pre).length = size ∧ ((flatten pre).map mf).length = size := by
  have h1 : (flatten pre).length = size := by
    rw [flatten_length, hpre]
    omega
  exact ⟨h1, by rw [List.length_map, h1]⟩

/-- C8 witness: size 2 with one children pair. -/
theorem population_size_even_witness :
    (flatten [((default : Chromosome), (default : Chromosome))]).length = 2
      ∧ ((flatten [((default : Chromosome), (default : Chromosome))]).map id).length = 2 :=
  population_size_even 2 [(default, default)] id (by decide) (by decide) (by decide)

/-! ## Claim C9 -/

/-- C9: the fitness evaluator is deterministic on an unchanged ordering —
two consecutive runs produce the same score, the same split and the same
per-resource claimed counts (the second run in fact reproduces the full
chromosome).  The deterministic Oracle of the spec does not read the
`books_chosen_num` scratch field, which is the `OracleIgnoresCounts`
hypothesis. -/
theorem evaluator_deterministic (oracle : Oracle) (ho : OracleIgnoresCounts oracle)
    (c : Chromosome) :
    ((c.calculate_split_and_score oracle).calculate_split_and_score oracle).score
        = (c.calculate_split_and_score oracle).score
      ∧ ((c.calculate_split_and_score oracle).calculate_split_and_score oracle).split
        = (c.calculate_split_and_score oracle).split
      ∧ ((c.calculate_split_and_score oracle).calculate_split_and_score oracle).libraries.map
            (fun p => p.2.books_chosen_num)
        = (c.calculate_split_and_score oracle).libraries.map
            (fun p => p.2.books_chosen_num) := by
  rw [calculate_idempotent oracle ho c]
  exact ⟨rfl, rfl, rfl⟩

/-- Example oracle for C9. -/
def oracleEx9 : Oracle := fun lib _ _ _ => lib.books

/-- Example chromosome for C9. -/
def cEx9 : Chromosome := ⟨10, [(0, ⟨1, [(7, 3)], 0⟩), (1, ⟨1, [], 0⟩)], 0, 0⟩

/-- C9 witness: determinism of the double evaluation of `cEx9`. -/
theorem evaluator_deterministic_witness :
    ((cEx9.calculate_split_and_score oracleEx9).calculate_split_and_score oracleEx9).score
        = (cEx9.calculate_split_and_score oracleEx9).score
      ∧ ((cEx9.calculate_split_and_score oracleEx9).calculate_split_and_score oracleEx9).split
        = (cEx9.calculate_split_and_score oracleEx9).split
      ∧ ((cEx9.calculate_split_and_score oracleEx9).calculate_split_and_score
            oracleEx9).libraries.map (fun p => p.2.books_chosen_num)
        = (cEx9.calculate_split_and_score oracleEx9).libraries.map
            (fun p => p.2.books_chosen_num) :=
  evaluator_deterministic oracleEx9 (fun lib n days start claimed => rfl) cEx9

/-! ## Claim C10 -/

/-- Example oracle for C10: never claims anything. -/
def oracleEx10 : Oracle := fun _ _ _ _ => []

/-- Example chromosome for C10: two libraries, stale split 2. -/
def cEx10 : Chromosome := ⟨10, [(0, ⟨1, [(7, 3)], 0⟩), (1, ⟨1, [], 0⟩)], 2, 0⟩

/-- C10 counterexample: `cEx10`'s ordering produces no non-empty claim at
either position, yet — because the evaluator keeps the stale split 2,
which sits between 1 and the list length — the mutation attempt draws `a`
from the non-empty range `[0, 2)` and `b` from the non-empty range
`[0, 2)` (the split equals the list length, so the lower bound drops
to 0) and returns normally instead of raising. -/
theorem mutate_stale_split_counterexample :
    callAt oracleEx10 cEx10.days cEx10.libraries cEx10.split 0 = []
      ∧ callAt oracleEx10 cEx10.days cEx10.libraries cEx10.split 1 = []
      ∧ cEx10.mutate oracleEx10 0 1 ≠ none := by
  refine ⟨rfl, rfl, by decide⟩

/-- C10 (amended): a single mutation attempt fails with `ValueError`
exactly when the evaluation that `mutate` performs first leaves an
unusable `split`: either `split = 0` (the draw `a = randrange(0, split)`
raises) or `split` exceeds the library count (the draw
`b = randrange(split, len)` raises).  An ordering producing no non-empty
claim implies neither, since the evaluator retains the previous split
value: with a stale split between 1 and the list length the attempt
returns normally. -/
theorem mutate_none_iff_split_invalid (oracle : Oracle) (c : Chromosome) (a b : Nat) :
    c.mutate oracle a b = none
      ↔ ((c.calculate_split_and_score oracle).split = 0
          ∨ (c.calculate_split_and_score oracle).libraries.length
              < (c.calculate_split_and_score oracle).split) := by
  rw [mutate_def]
  by_cases h0 : (c.calculate_split_and_score oracle).split = 0
  · rw [if_pos h0]
    simp [h0]
  · rw [if_neg h0]
    by_cases h1 : (c.calculate_split_and_score oracle).libraries.length
        ≤ (if (c.calculate_split_and_score oracle).split
              ≠ (c.calculate_split_and_score oracle).libraries.length
           then (c.calculate_split_and_score oracle).split else 0)
    · rw [if_pos h1]
      refine iff_of_true rfl (Or.inr ?_)
      by_cases h2 : (c.calculate_split_and_score oracle).split
          ≠ (c.calculate_split_and_score oracle).libraries.length
      · rw [if_pos h2] at h1
        omega
      · rw [if_neg h2] at h1
        have h2n : (c.calculate_split_and_score oracle).split
            = (c.calculate_split_and_score oracle).libraries.length := not_ne_iff.mp h2
        omega
    · rw [if_neg h1]
      refine iff_of_false ?_ ?_
      · intro h
        by_cases hacc : (c.calculate_split_and_score oracle).score
            < scoreFn oracle (swapAt (c.calculate_split_and_score oracle).libraries a b)
                (c.calculate_split_and_score oracle).days
        · rw [if_pos hacc] at h
          exact absurd h (by simp)
        · rw [if_neg hacc] at h
          exact absurd h (by simp)
      · rintro (h | h)
        · exact h0 h
        · by_cases h2 : (c.calculate_split_and_score oracle).split
              ≠ (c.calculate_split_and_score oracle).libraries.length
          · rw [if_pos h2] at h1
            omega
          · have h2n : (c.calculate_split_and_score oracle).split
                = (c.calculate_split_and_score oracle).libraries.length := not_ne_iff.mp h2
            omega
